import Mathlib

/-!
Shallow embedding of `scripts/align_planet.py` (planet frame alignment pipeline).

Conventions of the embedding:
* Python exceptions are modelled with `Except PyError`; a function that can
  raise returns `Except PyError α`, and `Except.ok` is the normal return.
* A monochrome image is modelled as its dimensions plus a total function
  giving the first colour channel of each pixel (`pixel[0]` is the only
  channel the script ever reads).  Pixel coordinates are integers.
* Python floats are modelled as rationals (`ℚ`); `round` is Python 3's
  round-half-to-even (`pyRound`), and `%d` string formatting of a float
  truncates toward zero (`pyTrunc`).
* The external `convert` subprocess calls are collaborators: thresholding is a
  parameter producing a monochrome image (or failing), and cropping is
  recorded as a `CropCall` value holding the exact geometry and output path
  the subprocess would receive.
* File-system existence checks (`os.path.isfile`) are a parameter
  `fs : String → Bool`.
-/

/-- Python exception kinds that the embedded code can raise. -/
inductive PyError where
  | nameError
  | valueError
  | typeError
  | ioError
  | calledProcessError
deriving DecidableEq

deriving instance DecidableEq for Except

/-- A decoded monochrome image: dimensions and the first colour channel of
each pixel, as read by `image.getpixel((x, y))[0]`. -/
structure PyImage where
  width : ℤ
  height : ℤ
  pix : ℤ → ℤ → ℕ

/-- `ProcessingOpts` from the script (the worker-pool sizes are carried along
but play no role in the pure model). -/
structure ProcessingOpts where
  output_dir : String
  centroid_threshold_pct : ℤ
  centroid_stride_sequence_px : List ℤ
  centroid_search_radius_px : ℤ
  centroid_pool_size : ℕ
  crop_ratio : ℚ
  crop_pool_size : ℕ

/-- The option values the script constructs (`ProcessingOpts.__init__`),
with output directory `"out"`. -/
def defaultOpts : ProcessingOpts :=
  { output_dir := "out"
    centroid_threshold_pct := 2
    centroid_stride_sequence_px := [64, 32, 16, 8, 4, 2, 1]
    centroid_search_radius_px := 150
    centroid_pool_size := 4
    crop_ratio := 7 / 2
    crop_pool_size := 4 }

/-- `ImageCentroid`: centroid centre point and detected size. -/
structure ImageCentroid where
  center : ℤ × ℤ
  size_x : ℤ
  size_y : ℤ
deriving DecidableEq

/-- `sys.maxsize` on a 64-bit CPython. -/
def sysMaxsize : ℤ := 2 ^ 63 - 1

/-- `extent(arr)`: `(lowest, highest)` of a list if non-empty, else `None`;
the running minimum and maximum start at `sys.maxsize` and `-sys.maxsize`,
exactly as in the script. -/
def extent (arr : List ℤ) : Option (ℤ × ℤ) :=
  if arr.isEmpty then none
  else
    some (arr.foldl
      (fun acc x =>
        (if x < acc.1 then x else acc.1, if x > acc.2 then x else acc.2))
      (sysMaxsize, -sysMaxsize))

/-- Length of `range(start, stop, step)` for a positive `step` (the script
only ever uses positive strides; for `step ≤ 0` the model is empty). -/
def pyRangeLen (start stop step : ℤ) : ℕ :=
  ((stop - start).toNat + (step.toNat - 1)) / step.toNat

/-- Python `range(start, stop, step)` as a list, for positive `step`. -/
def pyRange (start stop step : ℤ) : List ℤ :=
  (List.range (pyRangeLen start stop step)).map (fun i : ℕ => start + step * (i : ℤ))

/-- `itertools.product(xs, ys)`: all pairs, first coordinate outermost. -/
def pyProduct (xs ys : List ℤ) : List (ℤ × ℤ) :=
  xs.flatMap (fun x => ys.map (fun y => (x, y)))

/-- `centr_is_pixel_white(pixel)`: the first channel exceeds 10. -/
def centr_is_pixel_white (channel0 : ℕ) : Bool :=
  10 < channel0

/-- `centr_find_pixel(image, stride)`: first lit point of the stride lattice
over `range(0, width, stride) × range(0, height, stride)`, else `None`. -/
def centr_find_pixel (im : PyImage) (stride : ℤ) : Option (ℤ × ℤ) :=
  (pyProduct (pyRange 0 im.width stride) (pyRange 0 im.height stride)).find?
    (fun p => centr_is_pixel_white (im.pix p.1 p.2))

/-- The rectangle of points scanned by `centr_search_pixels`: the square
window of half-width `radius` around `center`, clipped to the image bounds
(`min_x = max(0, cx - radius)`, `max_x = min(width, cx + radius)`, same for
`y`).  These are exactly the coordinates passed to `image.getpixel`. -/
def centr_search_domain (im : PyImage) (radius : ℤ) (center : ℤ × ℤ) : List (ℤ × ℤ) :=
  pyProduct
    (pyRange (max 0 (center.1 - radius)) (min im.width (center.1 + radius)) 1)
    (pyRange (max 0 (center.2 - radius)) (min im.height (center.2 + radius)) 1)

/-- `centr_search_pixels(image, radius, center)`: the lit pixels of the
clipped window, in scan order. -/
def centr_search_pixels (im : PyImage) (radius : ℤ) (center : ℤ × ℤ) : List (ℤ × ℤ) :=
  (centr_search_domain im radius center).filter
    (fun p => centr_is_pixel_white (im.pix p.1 p.2))

/-- All lit in-bounds pixels of an image, in scan order.  This is a
specification-side helper (the full-image analogue of `centr_search_pixels`)
used to state properties about "the lit pixel set". -/
def litPixels (im : PyImage) : List (ℤ × ℤ) :=
  (pyProduct (pyRange 0 im.width 1) (pyRange 0 im.height 1)).filter
    (fun p => centr_is_pixel_white (im.pix p.1 p.2))

/-- The seed-search loop of `centr_scan_monochrome`: try each stride in
order, keep the first hit. -/
def centr_seed (im : PyImage) (opts : ProcessingOpts) : Option (ℤ × ℤ) :=
  opts.centroid_stride_sequence_px.findSome? (fun stride => centr_find_pixel im stride)

/-- Python 3 `round` to an integer: round half to even.  Stated over the
numerator and denominator so that it evaluates by kernel reduction; `f` is
`⌊q⌋` and `rnum / den` is the fractional part `q - ⌊q⌋`. -/
def pyRound (q : ℚ) : ℤ :=
  let f := q.num / (q.den : ℤ)
  let rnum := q.num - f * (q.den : ℤ)
  if 2 * rnum < (q.den : ℤ) then f
  else if (q.den : ℤ) < 2 * rnum then f + 1
  else if f % 2 = 0 then f else f + 1

/-- `%d` formatting of a Python float: truncation toward zero. -/
def pyTrunc (q : ℚ) : ℤ :=
  if 0 ≤ q then ⌊q⌋ else ⌈q⌉

/-- `centr_scan_monochrome(mono_image, opts)`.  Note the failure branch of
the seed search: its log line reads the name `_stride_sequence_px`, which is
defined nowhere in the script, so that branch raises `NameError` instead of
reaching its `return None`.  The refinement-failure branch prints and
returns `None` (`Except.ok none`).  If `extent` returned `None` the
subscripts `x_extent[1]` would raise `TypeError`; that arm is kept in the
model. -/
def centr_scan_monochrome (im : PyImage) (opts : ProcessingOpts) :
    Except PyError (Option ImageCentroid) :=
  match centr_seed im opts with
  | none => Except.error PyError.nameError
  | some center =>
    let white_pixels := centr_search_pixels im opts.centroid_search_radius_px center
    if white_pixels.length = 0 then Except.ok none
    else
      let x_vals := white_pixels.map Prod.fst
      let y_vals := white_pixels.map Prod.snd
      let avg_x : ℚ := (x_vals.sum : ℚ) / (x_vals.length : ℚ)
      let avg_y : ℚ := (y_vals.sum : ℚ) / (y_vals.length : ℚ)
      let center_pt : ℤ × ℤ := (pyRound avg_x, pyRound avg_y)
      match extent x_vals, extent y_vals with
      | some x_extent, some y_extent =>
        Except.ok (some
          { center := center_pt
            size_x := x_extent.2 - x_extent.1
            size_y := y_extent.2 - y_extent.1 })
      | _, _ => Except.error PyError.typeError

/-- `find_center(input_image, opts)`.  `fs` models `os.path.isfile`; `conv`
models the `convert -threshold` subprocess producing the temporary
monochrome image (or failing, e.g. `CalledProcessError`).  When the input
file is missing the script prints an error and returns `None`. -/
def find_center (fs : String → Bool) (conv : String → Except PyError PyImage)
    (input_image : String) (opts : ProcessingOpts) :
    Except PyError (Option ImageCentroid) :=
  if fs input_image then
    match conv input_image with
    | Except.error e => Except.error e
    | Except.ok mono => centr_scan_monochrome mono opts
  else
    Except.ok none

/-- `crop_calculate_size(center_infos, opts)`: Python `max` over an empty
generator raises `ValueError`; otherwise the common size is the per-axis
maximum detected size scaled by the crop ratio. -/
def crop_calculate_size (center_infos : List ImageCentroid) (opts : ProcessingOpts) :
    Except PyError (ℚ × ℚ) :=
  match center_infos with
  | [] => Except.error PyError.valueError
  | c :: rest =>
    let size_x : ℤ := rest.foldl (fun m i => max m i.size_x) c.size_x
    let size_y : ℤ := rest.foldl (fun m i => max m i.size_y) c.size_y
    Except.ok ((size_x : ℚ) * opts.crop_ratio, (size_y : ℚ) * opts.crop_ratio)

/-- `get_frame_centroid(input_image, opts)` without the timing/log lines:
pair the frame path with its centroid, or `None` when detection failed. -/
def get_frame_centroid (fs : String → Bool) (conv : String → Except PyError PyImage)
    (input_image : String) (opts : ProcessingOpts) :
    Except PyError (Option (String × ImageCentroid)) :=
  match find_center fs conv input_image opts with
  | Except.error e => Except.error e
  | Except.ok none => Except.ok none
  | Except.ok (some cent) => Except.ok (some (input_image, cent))

/-- `os.path.split(p)[-1]` for POSIX paths: the part after the last `/`. -/
def py_basename (p : String) : String :=
  String.mk ((p.toList.reverse.takeWhile (fun c => c ≠ '/')).reverse)

/-- `os.path.splitext` as applied to a basename (no `/` inside): split at
the last dot, unless every character before that dot is itself a dot (so
`".bashrc"` has no extension), following CPython's `genericpath._splitext`. -/
def py_splitext (b : String) : String × String :=
  let cs := b.toList
  let revDot := cs.reverse.findIdx (fun c => c = '.')
  if revDot < cs.length then
    let dotIndex := cs.length - 1 - revDot
    if (cs.take dotIndex).any (fun c => c ≠ '.') then
      (String.mk (cs.take dotIndex), String.mk (cs.drop dotIndex))
    else (b, "")
  else (b, "")

/-- `os.path.join(a, b)` for POSIX paths, two arguments: `b` absolute
replaces `a`; an empty `a` or an `a` ending in the separator is concatenated
directly; otherwise a separator goes in between. -/
def py_join (a b : String) : String :=
  if b.toList.take 1 = ['/'] then b
  else if a.toList = [] then a ++ b
  else if a.toList.getLast? = some '/' then a ++ b
  else a ++ "/" ++ b

/-- The `convert -crop` invocation built by `crop_on_center`: geometry
`WxH+X+Y` (sizes `%d`-formatted, i.e. truncated toward zero) and the output
file written next to it. -/
structure CropCall where
  input_image : String
  crop_w : ℤ
  crop_h : ℤ
  off_x : ℤ
  off_y : ℤ
  out_file : String
deriving DecidableEq

/-- `crop_on_center(input_image, center, image_size, opts)`: derive the
output filename `<stem>_aligned<ext>` inside the output directory, and the
top-left offset `center - round(size / 2.0)` per axis. -/
def crop_on_center (input_image : String) (center : ImageCentroid)
    (image_size : ℚ × ℚ) (opts : ProcessingOpts) : CropCall :=
  let base_name := py_basename input_image
  let ext := py_splitext base_name
  let out_file := py_join opts.output_dir (ext.1 ++ "_aligned" ++ ext.2)
  let cx := center.center.1 - pyRound (image_size.1 / 2)
  let cy := center.center.2 - pyRound (image_size.2 / 2)
  { input_image := input_image
    crop_w := pyTrunc image_size.1
    crop_h := pyTrunc image_size.2
    off_x := cx
    off_y := cy
    out_file := out_file }

/-- `Pool.map(worker, args)`: collect every worker's result in input order;
an exception raised in any worker propagates out of `map` and aborts the
caller (modelled left-to-right). -/
def poolMap {α β : Type} (g : α → Except PyError β) : List α → Except PyError (List β)
  | [] => Except.ok []
  | a :: rest =>
    match g a, poolMap g rest with
    | Except.error e, _ => Except.error e
    | Except.ok _, Except.error e => Except.error e
    | Except.ok b, Except.ok bs => Except.ok (b :: bs)

/-- The module-level orchestration after argument parsing: detect centroids
on every frame (an exception in any worker aborts the batch), drop the
frames without a centroid (`filter(lambda x: x != None, crop_info)`), plan
the common crop size once, then build one crop invocation per surviving
frame; an uncaught exception anywhere aborts the whole run. -/
def runBatch (fs : String → Bool) (conv : String → Except PyError PyImage)
    (frames : List String) (opts : ProcessingOpts) :
    Except PyError (List CropCall) :=
  match poolMap (fun f => get_frame_centroid fs conv f opts) frames with
  | Except.error e => Except.error e
  | Except.ok crop_info =>
    let filtered_crop_info := crop_info.filterMap id
    match crop_calculate_size (filtered_crop_info.map Prod.snd) opts with
    | Except.error e => Except.error e
    | Except.ok crop_size =>
      Except.ok (filtered_crop_info.map (fun c => crop_on_center c.1 c.2 crop_size opts))

/-- A 4-by-4 all-black monochrome image. -/
def darkImage : PyImage :=
  { width := 4, height := 4, pix := fun _ _ => 0 }

/-- A 4-by-4 image whose only lit pixels are `(1, 1)` and `(2, 1)`. -/
def twoPixelImage : PyImage :=
  { width := 4, height := 4
    pix := fun x y => if (x = 1 ∧ y = 1) ∨ (x = 2 ∧ y = 1) then 255 else 0 }

/-! ### Range and product lemmas -/

theorem mem_pyRange_one {s t x : ℤ} : x ∈ pyRange s t 1 ↔ s ≤ x ∧ x < t := by
  rw [pyRange]
  constructor
  · intro hx
    obtain ⟨i, hi, hxe⟩ := List.mem_map.mp hx
    rw [List.mem_range, pyRangeLen, Int.toNat_one] at hi
    omega
  · rintro ⟨h1, h2⟩
    refine List.mem_map.mpr ⟨(x - s).toNat, ?_, ?_⟩
    · rw [List.mem_range, pyRangeLen, Int.toNat_one]
      omega
    · omega

theorem mem_pyRange_bounds {s t k x : ℤ} (hk : 1 ≤ k) (hx : x ∈ pyRange s t k) :
    s ≤ x ∧ x < t := by
  rw [pyRange] at hx
  obtain ⟨i, hi, hxe⟩ := List.mem_map.mp hx
  rw [List.mem_range, pyRangeLen] at hi
  subst hxe
  have h1 : (i + 1) * k.toNat ≤ (((t - s).toNat + (k.toNat - 1)) / k.toNat) * k.toNat :=
    Nat.mul_le_mul (Nat.succ_le_of_lt hi) (Nat.le_refl _)
  have h2 : (((t - s).toNat + (k.toNat - 1)) / k.toNat) * k.toNat ≤
      (t - s).toNat + (k.toNat - 1) := Nat.div_mul_le_self _ _
  have h3 : i * k.toNat + k.toNat ≤ (t - s).toNat + (k.toNat - 1) := by
    calc i * k.toNat + k.toNat = (i + 1) * k.toNat := (Nat.succ_mul i k.toNat).symm
      _ ≤ _ := le_trans h1 h2
  obtain ⟨A, hA⟩ : ∃ A, i * k.toNat = A := ⟨_, rfl⟩
  rw [hA] at h3
  have h4 : A < (t - s).toNat := by omega
  have h6 : ((A : ℤ)) < (((t - s).toNat : ℤ)) := by exact_mod_cast h4
  have h7 : ((A : ℤ)) = k * (i : ℤ) := by
    rw [← hA]
    push_cast [Int.toNat_of_nonneg (show (0 : ℤ) ≤ k by omega)]
    ring
  have h8 : (0 : ℤ) ≤ k * (i : ℤ) := by
    rw [← h7]
    exact_mod_cast Nat.zero_le A
  have h9 : k * (i : ℤ) < t - s := by
    rcases le_or_lt 0 (t - s) with hts | hts
    · rw [Int.toNat_of_nonneg hts] at h6
      rw [← h7]
      exact h6
    · exfalso
      rw [Int.toNat_of_nonpos (le_of_lt hts)] at h6
      simp only [Int.natCast_zero] at h6
      exact absurd h6 (by omega)
  exact ⟨by linarith, by linarith⟩

theorem mem_pyProduct {xs ys : List ℤ} {p : ℤ × ℤ} :
    p ∈ pyProduct xs ys ↔ p.1 ∈ xs ∧ p.2 ∈ ys := by
  obtain ⟨a, b⟩ := p
  simp only [pyProduct, List.mem_flatMap, List.mem_map, Prod.mk.injEq]
  constructor
  · rintro ⟨x, hx, y, hy, rfl, rfl⟩
    exact ⟨hx, hy⟩
  · rintro ⟨ha, hb⟩
    exact ⟨a, ha, b, hb, rfl, rfl⟩

theorem pyRange_nodup (s t k : ℤ) (hk : 1 ≤ k) : (pyRange s t k).Nodup := by
  rw [pyRange]
  refine List.Nodup.map ?_ (List.nodup_range _)
  intro i j h
  have h1 : k * (i : ℤ) = k * (j : ℤ) := add_left_cancel h
  have h2 : (i : ℤ) = (j : ℤ) := mul_left_cancel₀ (by omega) h1
  exact_mod_cast h2

theorem pyProduct_nodup {xs ys : List ℤ} (hx : xs.Nodup) (hy : ys.Nodup) :
    (pyProduct xs ys).Nodup := by
  induction xs with
  | nil => simp [pyProduct]
  | cons a l ih =>
    rw [List.nodup_cons] at hx
    have hmap : (ys.map (fun y => (a, y))).Nodup :=
      hy.map (fun y₁ y₂ h => (Prod.mk.injEq a y₁ a y₂ ▸ h).2)
    refine List.Nodup.append hmap (ih hx.2) ?_
    intro p hp hp'
    have h1 : p.1 = a := by
      obtain ⟨y, _, rfl⟩ := List.mem_map.mp hp
      rfl
    have h2 : p.1 ∈ l := (mem_pyProduct.mp hp').1
    exact hx.1 (h1 ▸ h2)

/-! ### Folded minimum / maximum lemmas -/

theorem foldl_min_le_init (l : List ℤ) (a : ℤ) : l.foldl min a ≤ a := by
  induction l generalizing a with
  | nil => exact le_refl a
  | cons x l ih => exact le_trans (ih (min a x)) (min_le_left a x)

theorem foldl_min_le_mem (l : List ℤ) (a : ℤ) : ∀ x ∈ l, l.foldl min a ≤ x := by
  induction l generalizing a with
  | nil => intro x hx; cases hx
  | cons y l ih =>
    intro x hx
    rcases List.mem_cons.mp hx with rfl | hx
    · exact le_trans (foldl_min_le_init l (min a x)) (min_le_right a x)
    · exact ih (min a y) x hx

theorem foldl_min_choice (l : List ℤ) (a : ℤ) : l.foldl min a = a ∨ l.foldl min a ∈ l := by
  induction l generalizing a with
  | nil => exact Or.inl rfl
  | cons y l ih =>
    rcases ih (min a y) with h | h
    · rcases min_choice a y with h' | h'
      · exact Or.inl (by rw [List.foldl_cons, h, h'])
      · exact Or.inr (by rw [List.foldl_cons, h, h']; exact List.mem_cons_self y l)
    · exact Or.inr (List.mem_cons_of_mem y h)

theorem foldl_min_eq {l : List ℤ} {a m : ℤ} (hm : m ∈ l) (hlb : ∀ x ∈ l, m ≤ x)
    (ha : m ≤ a) : l.foldl min a = m := by
  refine le_antisymm (foldl_min_le_mem l a m hm) ?_
  rcases foldl_min_choice l a with h | h
  · omega
  · exact hlb _ h

theorem le_foldl_max_init (l : List ℤ) (a : ℤ) : a ≤ l.foldl max a := by
  induction l generalizing a with
  | nil => exact le_refl a
  | cons x l ih => exact le_trans (le_max_left a x) (ih (max a x))

theorem mem_le_foldl_max (l : List ℤ) (a : ℤ) : ∀ x ∈ l, x ≤ l.foldl max a := by
  induction l generalizing a with
  | nil => intro x hx; cases hx
  | cons y l ih =>
    intro x hx
    rcases List.mem_cons.mp hx with rfl | hx
    · exact le_trans (le_max_right a x) (le_foldl_max_init l (max a x))
    · exact ih (max a y) x hx

theorem foldl_max_choice (l : List ℤ) (a : ℤ) : l.foldl max a = a ∨ l.foldl max a ∈ l := by
  induction l generalizing a with
  | nil => exact Or.inl rfl
  | cons y l ih =>
    rcases ih (max a y) with h | h
    · rcases max_choice a y with h' | h'
      · exact Or.inl (by rw [List.foldl_cons, h, h'])
      · exact Or.inr (by rw [List.foldl_cons, h, h']; exact List.mem_cons_self y l)
    · exact Or.inr (List.mem_cons_of_mem y h)

theorem foldl_max_eq {l : List ℤ} {a M : ℤ} (hM : M ∈ l) (hub : ∀ x ∈ l, x ≤ M)
    (ha : a ≤ M) : l.foldl max a = M := by
  refine le_antisymm ?_ (mem_le_foldl_max l a M hM)
  rcases foldl_max_choice l a with h | h
  · omega
  · exact hub _ h

/-! ### `extent` lemmas -/

theorem extent_foldl_pair (l : List ℤ) (a b : ℤ) :
    l.foldl (fun acc x =>
        (if x < acc.1 then x else acc.1, if x > acc.2 then x else acc.2)) (a, b) =
      (l.foldl min a, l.foldl max b) := by
  induction l generalizing a b with
  | nil => rfl
  | cons x l ih =>
    rw [List.foldl_cons, List.foldl_cons, List.foldl_cons]
    have h1 : (if x < a then x else a) = min a x := by
      rw [min_def]
      split_ifs <;> omega
    have h2 : (if x > b then x else b) = max b x := by
      rw [max_def]
      split_ifs <;> omega
    rw [show ((if x < a then x else a, if x > b then x else b) : ℤ × ℤ) =
        (min a x, max b x) from by rw [h1, h2]]
    exact ih (min a x) (max b x)

theorem extent_eq_some {l : List ℤ} {m M : ℤ} (hm : m ∈ l) (hlb : ∀ x ∈ l, m ≤ x)
    (hM : M ∈ l) (hub : ∀ x ∈ l, x ≤ M) (hms : m ≤ sysMaxsize)
    (hMs : -sysMaxsize ≤ M) : extent l = some (m, M) := by
  have hne : l ≠ [] := List.ne_nil_of_mem hm
  rw [extent, if_neg (by simpa [List.isEmpty_iff] using hne), extent_foldl_pair,
    foldl_min_eq hm hlb hms, foldl_max_eq hM hub hMs]

/-! ### Pixel-scan membership lemmas -/

theorem mem_centr_search_domain {im : PyImage} {radius : ℤ} {c p : ℤ × ℤ} :
    p ∈ centr_search_domain im radius c ↔
      (max 0 (c.1 - radius) ≤ p.1 ∧ p.1 < min im.width (c.1 + radius)) ∧
      (max 0 (c.2 - radius) ≤ p.2 ∧ p.2 < min im.height (c.2 + radius)) := by
  rw [centr_search_domain, mem_pyProduct, mem_pyRange_one, mem_pyRange_one]

theorem centr_search_domain_bounds {im : PyImage} {radius : ℤ} {c p : ℤ × ℤ}
    (hp : p ∈ centr_search_domain im radius c) :
    0 ≤ p.1 ∧ p.1 < im.width ∧ 0 ≤ p.2 ∧ p.2 < im.height := by
  obtain ⟨⟨h1, h2⟩, h3, h4⟩ := mem_centr_search_domain.mp hp
  omega

theorem mem_centr_search_pixels {im : PyImage} {radius : ℤ} {c p : ℤ × ℤ} :
    p ∈ centr_search_pixels im radius c ↔
      p ∈ centr_search_domain im radius c ∧ centr_is_pixel_white (im.pix p.1 p.2) := by
  rw [centr_search_pixels, List.mem_filter]

theorem mem_litPixels {im : PyImage} {p : ℤ × ℤ} :
    p ∈ litPixels im ↔
      (0 ≤ p.1 ∧ p.1 < im.width ∧ 0 ≤ p.2 ∧ p.2 < im.height) ∧
      centr_is_pixel_white (im.pix p.1 p.2) := by
  rw [litPixels, List.mem_filter, mem_pyProduct, mem_pyRange_one, mem_pyRange_one]
  tauto

theorem centr_search_pixels_nodup (im : PyImage) (radius : ℤ) (c : ℤ × ℤ) :
    (centr_search_pixels im radius c).Nodup :=
  (pyProduct_nodup (pyRange_nodup _ _ 1 (le_refl 1))
    (pyRange_nodup _ _ 1 (le_refl 1))).filter _

theorem litPixels_nodup (im : PyImage) : (litPixels im).Nodup :=
  (pyProduct_nodup (pyRange_nodup _ _ 1 (le_refl 1))
    (pyRange_nodup _ _ 1 (le_refl 1))).filter _

theorem centr_search_pixels_subset_lit {im : PyImage} {radius : ℤ} {c : ℤ × ℤ} :
    ∀ p ∈ centr_search_pixels im radius c, p ∈ litPixels im := by
  intro p hp
  obtain ⟨hd, hw⟩ := mem_centr_search_pixels.mp hp
  exact mem_litPixels.mpr ⟨centr_search_domain_bounds hd, hw⟩

theorem lit_subset_centr_search_pixels {im : PyImage} {radius : ℤ} {c : ℤ × ℤ}
    (hwin : ∀ p ∈ litPixels im, p ∈ centr_search_domain im radius c) :
    ∀ p ∈ litPixels im, p ∈ centr_search_pixels im radius c := fun p hp =>
  mem_centr_search_pixels.mpr ⟨hwin p hp, (mem_litPixels.mp hp).2⟩

theorem centr_search_pixels_perm_lit {im : PyImage} {radius : ℤ} {c : ℤ × ℤ}
    (hwin : ∀ p ∈ litPixels im, p ∈ centr_search_domain im radius c) :
    (centr_search_pixels im radius c).Perm (litPixels im) :=
  (List.perm_ext_iff_of_nodup (centr_search_pixels_nodup im radius c)
      (litPixels_nodup im)).mpr
    (fun p => ⟨fun hp => centr_search_pixels_subset_lit p hp,
      fun hp => lit_subset_centr_search_pixels hwin p hp⟩)

/-! ### Seed-search lemmas -/

theorem centr_find_pixel_lit {im : PyImage} {stride : ℤ} {p : ℤ × ℤ}
    (hk : 1 ≤ stride) (h : centr_find_pixel im stride = some p) : p ∈ litPixels im := by
  rw [centr_find_pixel] at h
  have hmem := List.mem_of_find?_eq_some h
  have hwhite := List.find?_some h
  rw [mem_pyProduct] at hmem
  obtain ⟨hx1, hx2⟩ := mem_pyRange_bounds hk hmem.1
  obtain ⟨hy1, hy2⟩ := mem_pyRange_bounds hk hmem.2
  exact mem_litPixels.mpr ⟨⟨hx1, hx2, hy1, hy2⟩, hwhite⟩

theorem centr_seed_lit {im : PyImage} {opts : ProcessingOpts} {seed : ℤ × ℤ}
    (hstr : ∀ s ∈ opts.centroid_stride_sequence_px, 1 ≤ s)
    (h : centr_seed im opts = some seed) : seed ∈ litPixels im := by
  rw [centr_seed] at h
  rw [List.findSome?_eq_some_iff] at h
  obtain ⟨l₁, stride, l₂, hsplit, hfind, -⟩ := h
  exact centr_find_pixel_lit (hstr stride (by rw [hsplit]; simp)) hfind

/-! ### Rounding lemmas -/

theorem rat_num_eq_mul_den (q : ℚ) : ((q.num : ℚ)) = q * (q.den : ℚ) := by
  have hden : ((q.den : ℚ)) ≠ 0 := by
    have := q.den_pos
    positivity
  exact (div_eq_iff hden).mp (Rat.num_div_den q)

theorem pyRound_bounds (q : ℚ) :
    q - 1 / 2 ≤ (pyRound q : ℚ) ∧ (pyRound q : ℚ) ≤ q + 1 / 2 := by
  have hfd : q.num / (q.den : ℤ) = ⌊q⌋ := Rat.floor_def.symm
  have hden0 : (0 : ℚ) < (q.den : ℚ) := by exact_mod_cast q.den_pos
  have hfl : (⌊q⌋ : ℚ) ≤ q := Int.floor_le q
  have hfu : q < ⌊q⌋ + 1 := Int.lt_floor_add_one q
  have hrnum : ((q.num - q.num / (q.den : ℤ) * (q.den : ℤ) : ℤ) : ℚ) =
      (q - (⌊q⌋ : ℚ)) * (q.den : ℚ) := by
    push_cast [hfd]
    rw [rat_num_eq_mul_den q]
    ring
  simp only [pyRound]
  split_ifs with h1 h2 h3
  · have h1' : ((2 * (q.num - q.num / (q.den : ℤ) * (q.den : ℤ)) : ℤ) : ℚ) <
        ((q.den : ℤ) : ℚ) := by exact_mod_cast h1
    push_cast [hrnum] at h1'
    have hq : q - (⌊q⌋ : ℚ) < 1 / 2 := by nlinarith
    rw [hfd]
    constructor <;> [linarith; linarith]
  · have h2' : (((q.den : ℤ)) : ℚ) <
        ((2 * (q.num - q.num / (q.den : ℤ) * (q.den : ℤ)) : ℤ) : ℚ) := by exact_mod_cast h2
    push_cast [hrnum] at h2'
    have hq : 1 / 2 < q - (⌊q⌋ : ℚ) := by nlinarith
    rw [hfd]
    push_cast
    constructor <;> [linarith; linarith]
  · have heqz : 2 * (q.num - q.num / (q.den : ℤ) * (q.den : ℤ)) = (q.den : ℤ) := by omega
    have heq' : ((2 * (q.num - q.num / (q.den : ℤ) * (q.den : ℤ)) : ℤ) : ℚ) =
        ((q.den : ℤ) : ℚ) := by exact_mod_cast heqz
    push_cast [hrnum] at heq'
    have hq : q - (⌊q⌋ : ℚ) = 1 / 2 := by nlinarith
    rw [hfd]
    constructor <;> [linarith; linarith]
  · have heqz : 2 * (q.num - q.num / (q.den : ℤ) * (q.den : ℤ)) = (q.den : ℤ) := by omega
    have heq' : ((2 * (q.num - q.num / (q.den : ℤ) * (q.den : ℤ)) : ℤ) : ℚ) =
        ((q.den : ℤ) : ℚ) := by exact_mod_cast heqz
    push_cast [hrnum] at heq'
    have hq : q - (⌊q⌋ : ℚ) = 1 / 2 := by nlinarith
    rw [hfd]
    push_cast
    constructor <;> [linarith; linarith]

theorem le_pyRound_int {q : ℚ} {m : ℤ} (h : (m : ℚ) ≤ q) : m ≤ pyRound q := by
  have hb := (pyRound_bounds q).1
  have h2 : ((m - 1 : ℤ) : ℚ) < (pyRound q : ℚ) := by push_cast; linarith
  have h3 : (m - 1 : ℤ) < pyRound q := by exact_mod_cast h2
  omega

theorem pyRound_int_le {q : ℚ} {M : ℤ} (h : q ≤ (M : ℚ)) : pyRound q ≤ M := by
  have hb := (pyRound_bounds q).2
  have h2 : (pyRound q : ℚ) < ((M + 1 : ℤ) : ℚ) := by push_cast; linarith
  have h3 : pyRound q < M + 1 := by exact_mod_cast h2
  omega

/-! ### Sum and average bounds -/

theorem le_list_sum {l : List ℤ} {m : ℤ} (h : ∀ x ∈ l, m ≤ x) :
    (l.length : ℤ) * m ≤ l.sum := by
  induction l with
  | nil => simp
  | cons x l ih =>
    rw [List.sum_cons, List.length_cons]
    have hx := h x (List.mem_cons_self x l)
    have hl := ih (fun y hy => h y (List.mem_cons_of_mem _ hy))
    push_cast
    linarith [hl]

theorem list_sum_le {l : List ℤ} {M : ℤ} (h : ∀ x ∈ l, x ≤ M) :
    l.sum ≤ (l.length : ℤ) * M := by
  induction l with
  | nil => simp
  | cons x l ih =>
    rw [List.sum_cons, List.length_cons]
    have hx := h x (List.mem_cons_self x l)
    have hl := ih (fun y hy => h y (List.mem_cons_of_mem _ hy))
    push_cast
    linarith [hl]

theorem avg_bounds {l : List ℤ} {m M : ℤ} (hne : l ≠ [])
    (hlb : ∀ x ∈ l, m ≤ x) (hub : ∀ x ∈ l, x ≤ M) :
    (m : ℚ) ≤ (l.sum : ℚ) / (l.length : ℚ) ∧ (l.sum : ℚ) / (l.length : ℚ) ≤ (M : ℚ) := by
  have hlen : 0 < l.length := List.length_pos.mpr hne
  have hlenQ : (0 : ℚ) < (l.length : ℚ) := by exact_mod_cast hlen
  have h1 : ((l.length : ℤ) * m : ℤ) ≤ l.sum := le_list_sum hlb
  have h2 : (l.sum : ℤ) ≤ ((l.length : ℤ) * M : ℤ) := list_sum_le hub
  have h1' : ((l.length : ℚ)) * (m : ℚ) ≤ ((l.sum : ℤ) : ℚ) := by exact_mod_cast h1
  have h2' : ((l.sum : ℤ) : ℚ) ≤ ((l.length : ℚ)) * (M : ℚ) := by exact_mod_cast h2
  constructor
  · rw [le_div_iff₀ hlenQ]
    linarith
  · rw [div_le_iff₀ hlenQ]
    linarith

/-! ### Unfolding the centroid scan -/

theorem centr_scan_eq_of_seed {im : PyImage} {opts : ProcessingOpts} {seed : ℤ × ℤ}
    {mx Mx my My : ℤ}
    (hseed : centr_seed im opts = some seed)
    (hne : (centr_search_pixels im opts.centroid_search_radius_px seed).length ≠ 0)
    (hex : extent ((centr_search_pixels im opts.centroid_search_radius_px seed).map Prod.fst) =
      some (mx, Mx))
    (hey : extent ((centr_search_pixels im opts.centroid_search_radius_px seed).map Prod.snd) =
      some (my, My)) :
    centr_scan_monochrome im opts = Except.ok (some
      { center :=
          (pyRound ((((centr_search_pixels im opts.centroid_search_radius_px seed).map
              Prod.fst).sum : ℚ) /
            (((centr_search_pixels im opts.centroid_search_radius_px seed).map
              Prod.fst).length : ℚ)),
           pyRound ((((centr_search_pixels im opts.centroid_search_radius_px seed).map
              Prod.snd).sum : ℚ) /
            (((centr_search_pixels im opts.centroid_search_radius_px seed).map
              Prod.snd).length : ℚ)))
        size_x := Mx - mx
        size_y := My - my }) := by
  rw [centr_scan_monochrome.eq_def, hseed]
  simp only [if_neg hne, hex, hey]

theorem extent_some_of_ne_nil {l : List ℤ} (h : l ≠ []) : ∃ pr, extent l = some pr := by
  rw [extent, if_neg (by simpa [List.isEmpty_iff] using h)]
  exact ⟨_, rfl⟩

theorem seed_mem_search {im : PyImage} {opts : ProcessingOpts} {seed : ℤ × ℤ}
    (hstr : ∀ s ∈ opts.centroid_stride_sequence_px, 1 ≤ s)
    (hrad : 1 ≤ opts.centroid_search_radius_px)
    (hseed : centr_seed im opts = some seed) :
    seed ∈ centr_search_pixels im opts.centroid_search_radius_px seed := by
  have hlit := centr_seed_lit hstr hseed
  obtain ⟨hb, hwhite⟩ := mem_litPixels.mp hlit
  refine mem_centr_search_pixels.mpr ⟨?_, hwhite⟩
  refine mem_centr_search_domain.mpr ⟨⟨?_, ?_⟩, ?_, ?_⟩ <;> omega

/-! ### Claim theorems -/

/-- C5: for every monochrome image whose lit pixel set is non-empty and lies
inside the clipped refinement window of the seed found by the coarse search
(in particular any single contiguous lit region inside that window), the scan
returns the centroid whose centre is the rounded arithmetic mean of the lit
pixels' coordinates, lies inside the lit region's bounding box
`[xmin, xmax] × [ymin, ymax]`, and whose size is the bounding-box dimensions
`(xmax - xmin, ymax - ymin)` computed over the lit pixel set. -/
theorem locate_single_region (im : PyImage) (opts : ProcessingOpts) (seed : ℤ × ℤ)
    (xmin xmax ymin ymax : ℤ)
    (hstr : ∀ s ∈ opts.centroid_stride_sequence_px, 1 ≤ s)
    (hw : im.width ≤ sysMaxsize) (hh : im.height ≤ sysMaxsize)
    (hseed : centr_seed im opts = some seed)
    (hwin : ∀ p ∈ litPixels im, p ∈ centr_search_domain im opts.centroid_search_radius_px seed)
    (hx1 : ∃ p ∈ litPixels im, p.1 = xmin) (hx2 : ∀ p ∈ litPixels im, xmin ≤ p.1)
    (hx3 : ∃ p ∈ litPixels im, p.1 = xmax) (hx4 : ∀ p ∈ litPixels im, p.1 ≤ xmax)
    (hy1 : ∃ p ∈ litPixels im, p.2 = ymin) (hy2 : ∀ p ∈ litPixels im, ymin ≤ p.2)
    (hy3 : ∃ p ∈ litPixels im, p.2 = ymax) (hy4 : ∀ p ∈ litPixels im, p.2 ≤ ymax) :
    centr_scan_monochrome im opts = Except.ok (some
      { center :=
          (pyRound ((((litPixels im).map Prod.fst).sum : ℚ) / ((litPixels im).length : ℚ)),
           pyRound ((((litPixels im).map Prod.snd).sum : ℚ) / ((litPixels im).length : ℚ)))
        size_x := xmax - xmin
        size_y := ymax - ymin }) ∧
    xmin ≤ pyRound ((((litPixels im).map Prod.fst).sum : ℚ) / ((litPixels im).length : ℚ)) ∧
    pyRound ((((litPixels im).map Prod.fst).sum : ℚ) / ((litPixels im).length : ℚ)) ≤ xmax ∧
    ymin ≤ pyRound ((((litPixels im).map Prod.snd).sum : ℚ) / ((litPixels im).length : ℚ)) ∧
    pyRound ((((litPixels im).map Prod.snd).sum : ℚ) / ((litPixels im).length : ℚ)) ≤ ymax := by
  have hperm : (centr_search_pixels im opts.centroid_search_radius_px seed).Perm
      (litPixels im) := centr_search_pixels_perm_lit hwin
  have hseedlit : seed ∈ litPixels im := centr_seed_lit hstr hseed
  have hseedW : seed ∈ centr_search_pixels im opts.centroid_search_radius_px seed :=
    lit_subset_centr_search_pixels hwin seed hseedlit
  have hWne : centr_search_pixels im opts.centroid_search_radius_px seed ≠ [] :=
    List.ne_nil_of_mem hseedW
  have hlen0 : (centr_search_pixels im opts.centroid_search_radius_px seed).length ≠ 0 :=
    fun h0 => hWne (List.length_eq_zero.mp h0)
  have hxne : (centr_search_pixels im opts.centroid_search_radius_px seed).map Prod.fst ≠ [] :=
    fun h0 => hWne (List.map_eq_nil_iff.mp h0)
  have hyne : (centr_search_pixels im opts.centroid_search_radius_px seed).map Prod.snd ≠ [] :=
    fun h0 => hWne (List.map_eq_nil_iff.mp h0)
  have hms : (0 : ℤ) ≤ sysMaxsize := by rw [sysMaxsize]; norm_num
  have hxmemW : xmin ∈ (centr_search_pixels im opts.centroid_search_radius_px seed).map
      Prod.fst := by
    obtain ⟨p, hp, hpe⟩ := hx1
    exact List.mem_map.mpr ⟨p, lit_subset_centr_search_pixels hwin p hp, hpe⟩
  have hxlbW : ∀ v ∈ (centr_search_pixels im opts.centroid_search_radius_px seed).map
      Prod.fst, xmin ≤ v := by
    intro v hv
    obtain ⟨p, hp, rfl⟩ := List.mem_map.mp hv
    exact hx2 p (centr_search_pixels_subset_lit p hp)
  have hXmemW : xmax ∈ (centr_search_pixels im opts.centroid_search_radius_px seed).map
      Prod.fst := by
    obtain ⟨p, hp, hpe⟩ := hx3
    exact List.mem_map.mpr ⟨p, lit_subset_centr_search_pixels hwin p hp, hpe⟩
  have hXubW : ∀ v ∈ (centr_search_pixels im opts.centroid_search_radius_px seed).map
      Prod.fst, v ≤ xmax := by
    intro v hv
    obtain ⟨p, hp, rfl⟩ := List.mem_map.mp hv
    exact hx4 p (centr_search_pixels_subset_lit p hp)
  have hymemW : ymin ∈ (centr_search_pixels im opts.centroid_search_radius_px seed).map
      Prod.snd := by
    obtain ⟨p, hp, hpe⟩ := hy1
    exact List.mem_map.mpr ⟨p, lit_subset_centr_search_pixels hwin p hp, hpe⟩
  have hylbW : ∀ v ∈ (centr_search_pixels im opts.centroid_search_radius_px seed).map
      Prod.snd, ymin ≤ v := by
    intro v hv
    obtain ⟨p, hp, rfl⟩ := List.mem_map.mp hv
    exact hy2 p (centr_search_pixels_subset_lit p hp)
  have hYmemW : ymax ∈ (centr_search_pixels im opts.centroid_search_radius_px seed).map
      Prod.snd := by
    obtain ⟨p, hp, hpe⟩ := hy3
    exact List.mem_map.mpr ⟨p, lit_subset_centr_search_pixels hwin p hp, hpe⟩
  have hYubW : ∀ v ∈ (centr_search_pixels im opts.centroid_search_radius_px seed).map
      Prod.snd, v ≤ ymax := by
    intro v hv
    obtain ⟨p, hp, rfl⟩ := List.mem_map.mp hv
    exact hy4 p (centr_search_pixels_subset_lit p hp)
  have hxmin_le : xmin ≤ sysMaxsize := by
    obtain ⟨p, hp, hpe⟩ := hx1
    have hb := (mem_litPixels.mp hp).1
    omega
  have hxmax_ge : -sysMaxsize ≤ xmax := by
    obtain ⟨p, hp, hpe⟩ := hx3
    have hb := (mem_litPixels.mp hp).1
    omega
  have hymin_le : ymin ≤ sysMaxsize := by
    obtain ⟨p, hp, hpe⟩ := hy1
    have hb := (mem_litPixels.mp hp).1
    omega
  have hymax_ge : -sysMaxsize ≤ ymax := by
    obtain ⟨p, hp, hpe⟩ := hy3
    have hb := (mem_litPixels.mp hp).1
    omega
  have hextx : extent ((centr_search_pixels im opts.centroid_search_radius_px seed).map
      Prod.fst) = some (xmin, xmax) :=
    extent_eq_some hxmemW hxlbW hXmemW hXubW hxmin_le hxmax_ge
  have hexty : extent ((centr_search_pixels im opts.centroid_search_radius_px seed).map
      Prod.snd) = some (ymin, ymax) :=
    extent_eq_some hymemW hylbW hYmemW hYubW hymin_le hymax_ge
  have hsumx : ((centr_search_pixels im opts.centroid_search_radius_px seed).map
      Prod.fst).sum = ((litPixels im).map Prod.fst).sum := (hperm.map Prod.fst).sum_eq
  have hsumy : ((centr_search_pixels im opts.centroid_search_radius_px seed).map
      Prod.snd).sum = ((litPixels im).map Prod.snd).sum := (hperm.map Prod.snd).sum_eq
  have hlenW : (centr_search_pixels im opts.centroid_search_radius_px seed).length =
      (litPixels im).length := hperm.length_eq
  have havgx := avg_bounds hxne hxlbW hXubW
  have havgy := avg_bounds hyne hylbW hYubW
  have hmain := centr_scan_eq_of_seed hseed hlen0 hextx hexty
  rw [hmain]
  simp only [hsumx, hsumy, List.length_map, hlenW] at havgx havgy ⊢
  refine ⟨trivial, ?_, ?_, ?_, ?_⟩
  · exact le_pyRound_int havgx.1
  · exact pyRound_int_le havgx.2
  · exact le_pyRound_int havgy.1
  · exact pyRound_int_le havgy.2

/-! ### Folded maximum over centroid sizes -/

theorem foldl_max_eq_of {l : List ℤ} {a M : ℤ} (hM : M = a ∨ M ∈ l)
    (hub : ∀ x ∈ l, x ≤ M) (ha : a ≤ M) : l.foldl max a = M := by
  refine le_antisymm ?_ ?_
  · rcases foldl_max_choice l a with h | h
    · rw [h]; exact ha
    · exact hub _ h
  · rcases hM with rfl | h
    · exact le_foldl_max_init l M
    · exact mem_le_foldl_max _ _ _ h

theorem size_foldl_eq_map_foldl (c : ImageCentroid) (rest : List ImageCentroid) :
    rest.foldl (fun m i => max m i.size_x) c.size_x =
      (rest.map ImageCentroid.size_x).foldl max c.size_x :=
  (List.foldl_map _ _ _ _).symm

theorem size_foldl_eq_map_foldl_y (c : ImageCentroid) (rest : List ImageCentroid) :
    rest.foldl (fun m i => max m i.size_y) c.size_y =
      (rest.map ImageCentroid.size_y).foldl max c.size_y :=
  (List.foldl_map _ _ _ _).symm

/-- C1 (code bug): on an all-dark image no stride of the configured sequence
yields a lit sample, and instead of returning `None` the scan raises
`NameError`, because the log line of that branch reads the undefined name
`_stride_sequence_px`.  The claim (and the spec) say this case returns
`NotFound` without raising. -/
theorem centr_scan_dark_nameError :
    centr_scan_monochrome darkImage defaultOpts = Except.error PyError.nameError := by
  decide

/-- C2: for every non-empty list of centroids, the crop planner returns
exactly `(max size_x * cropRatio, max size_y * cropRatio)`, where the
maxima are characterised extensionally over the input list. -/
theorem crop_calculate_size_spec (centroids : List ImageCentroid) (opts : ProcessingOpts)
    (mx my : ℤ)
    (hne : centroids ≠ [])
    (hmx1 : ∃ c ∈ centroids, c.size_x = mx) (hmx2 : ∀ c ∈ centroids, c.size_x ≤ mx)
    (hmy1 : ∃ c ∈ centroids, c.size_y = my) (hmy2 : ∀ c ∈ centroids, c.size_y ≤ my) :
    crop_calculate_size centroids opts =
      Except.ok ((mx : ℚ) * opts.crop_ratio, (my : ℚ) * opts.crop_ratio) := by
  obtain ⟨c, rest, rfl⟩ := List.exists_cons_of_ne_nil hne
  have hx : rest.foldl (fun m i => max m i.size_x) c.size_x = mx := by
    rw [size_foldl_eq_map_foldl]
    refine foldl_max_eq_of ?_ ?_ (hmx2 c (List.mem_cons_self c rest))
    · obtain ⟨d, hd, hde⟩ := hmx1
      rcases List.mem_cons.mp hd with rfl | hd
      · exact Or.inl hde.symm
      · exact Or.inr (List.mem_map.mpr ⟨d, hd, hde⟩)
    · intro x hxm
      obtain ⟨d, hd, rfl⟩ := List.mem_map.mp hxm
      exact hmx2 d (List.mem_cons_of_mem _ hd)
  have hy : rest.foldl (fun m i => max m i.size_y) c.size_y = my := by
    rw [size_foldl_eq_map_foldl_y]
    refine foldl_max_eq_of ?_ ?_ (hmy2 c (List.mem_cons_self c rest))
    · obtain ⟨d, hd, hde⟩ := hmy1
      rcases List.mem_cons.mp hd with rfl | hd
      · exact Or.inl hde.symm
      · exact Or.inr (List.mem_map.mpr ⟨d, hd, hde⟩)
    · intro x hxm
      obtain ⟨d, hd, rfl⟩ := List.mem_map.mp hxm
      exact hmy2 d (List.mem_cons_of_mem _ hd)
  simp only [crop_calculate_size, hx, hy]

/-- C2 (counterexample to the claim's concrete instance): on centroids with
sizes `(10,10)` and `(20,5)` and crop ratio `2` the planner does not return
`(40, 10)` — the heights' maximum is `10`, so the result is `(40, 20)`. -/
theorem crop_calculate_size_example_neq :
    crop_calculate_size [⟨(0, 0), 10, 10⟩, ⟨(0, 0), 20, 5⟩]
      { defaultOpts with crop_ratio := 2 } ≠ Except.ok (40, 10) := by
  have hval : crop_calculate_size [⟨(0, 0), 10, 10⟩, ⟨(0, 0), 20, 5⟩]
      { defaultOpts with crop_ratio := 2 } = Except.ok (40, 20) := by
    simp only [crop_calculate_size]
    norm_num
  rw [hval]
  intro heq
  simp only [Except.ok.injEq, Prod.mk.injEq] at heq
  have h2 := heq.2
  norm_num at h2

/-- C2 witness: the corrected concrete instance, `(40, 20)`. -/
theorem crop_calculate_size_spec_witness :
    crop_calculate_size [⟨(0, 0), 10, 10⟩, ⟨(0, 0), 20, 5⟩]
      { defaultOpts with crop_ratio := 2 } = Except.ok (40, 20) := by
  have h := crop_calculate_size_spec [⟨(0, 0), 10, 10⟩, ⟨(0, 0), 20, 5⟩]
    { defaultOpts with crop_ratio := 2 } 20 10
    (by decide) (by decide) (by decide) (by decide) (by decide)
  have hratio : ({ defaultOpts with crop_ratio := 2 } : ProcessingOpts).crop_ratio = 2 := rfl
  rw [h, hratio]
  norm_num

/-- C3: when every frame of the batch fails detection (each worker returns
`None`), the crop planner fails on its empty input with `ValueError` and the
whole run aborts with that uncaught error before phase 2 — the result
carries no crop invocation at all. -/
theorem batch_aborts_when_all_fail (fs : String → Bool)
    (conv : String → Except PyError PyImage)
    (frames : List String) (opts : ProcessingOpts)
    (hall : ∀ f ∈ frames, get_frame_centroid fs conv f opts = Except.ok none) :
    crop_calculate_size [] opts = Except.error PyError.valueError ∧
    runBatch fs conv frames opts = Except.error PyError.valueError := by
  refine ⟨rfl, ?_⟩
  have hmap : poolMap (fun f => get_frame_centroid fs conv f opts) frames =
      Except.ok (List.replicate frames.length
        (none : Option (String × ImageCentroid))) := by
    induction frames with
    | nil => rfl
    | cons f rest ih =>
      have hf := hall f (List.mem_cons_self f rest)
      have hrest := ih (fun g hg => hall g (List.mem_cons_of_mem _ hg))
      rw [poolMap, hf, hrest, List.length_cons, List.replicate_succ]
  have hfil : ∀ n : ℕ,
      (List.replicate n (none : Option (String × ImageCentroid))).filterMap id = [] := by
    intro n
    induction n with
    | zero => rfl
    | succ n ih => rw [List.replicate_succ, List.filterMap_cons]; exact ih
  rw [runBatch, hmap]
  simp only [hfil, List.map_nil, crop_calculate_size]

/-- C3 witness: a one-frame batch whose only frame is missing. -/
theorem batch_aborts_when_all_fail_witness :
    crop_calculate_size [] defaultOpts = Except.error PyError.valueError ∧
    runBatch (fun _ => false) (fun _ => Except.error PyError.calledProcessError)
      ["a.jpg"] defaultOpts = Except.error PyError.valueError :=
  batch_aborts_when_all_fail _ _ _ _ (by decide)

/-- C4 (counterexample): on a missing frame path `find_center` returns
`None` (after printing the error); it does not raise `IOError` as the claim
states. -/
theorem find_center_missing_not_ioerror :
    find_center (fun _ => false) (fun _ => Except.error PyError.calledProcessError)
      "missing.jpg" defaultOpts = Except.ok none ∧
    (Except.ok none : Except PyError (Option ImageCentroid)) ≠
      Except.error PyError.ioError := by
  exact ⟨rfl, by simp⟩

/-- C4 (amended): for every frame path that does not reference an existing
file, `find_center` reports the error and returns `None` (no exception), so
`get_frame_centroid` yields no centroid for that frame — it is skipped and
the rest of the batch continues. -/
theorem find_center_missing_file_skipped (fs : String → Bool)
    (conv : String → Except PyError PyImage) (input_image : String) (opts : ProcessingOpts)
    (h : fs input_image = false) :
    find_center fs conv input_image opts = Except.ok none ∧
    get_frame_centroid fs conv input_image opts = Except.ok none := by
  have h1 : find_center fs conv input_image opts = Except.ok none := by
    rw [find_center, h]
    rfl
  exact ⟨h1, by rw [get_frame_centroid, h1]⟩

/-- C4 witness: a concrete missing file. -/
theorem find_center_missing_file_skipped_witness :
    find_center (fun _ => false) (fun _ => Except.error PyError.calledProcessError)
      "b.jpg" defaultOpts = Except.ok none ∧
    get_frame_centroid (fun _ => false) (fun _ => Except.error PyError.calledProcessError)
      "b.jpg" defaultOpts = Except.ok none :=
  find_center_missing_file_skipped _ _ _ _ rfl

/-- C5 witness: a 4×4 image with two adjacent lit pixels `(1,1)` and
`(2,1)`; the scan centre is the rounded mean of the lit pixels and the size
is their bounding box `(1, 0)`. -/
theorem locate_single_region_witness :
    centr_scan_monochrome twoPixelImage defaultOpts = Except.ok (some
      { center :=
          (pyRound ((((litPixels twoPixelImage).map Prod.fst).sum : ℚ) /
            ((litPixels twoPixelImage).length : ℚ)),
           pyRound ((((litPixels twoPixelImage).map Prod.snd).sum : ℚ) /
            ((litPixels twoPixelImage).length : ℚ)))
        size_x := 2 - 1
        size_y := 1 - 1 }) :=
  (locate_single_region twoPixelImage defaultOpts (1, 1) 1 2 1 1
    (by decide) (by decide) (by decide) (by decide) (by decide)
    (by decide) (by decide) (by decide) (by decide)
    (by decide) (by decide) (by decide) (by decide)).1

/-- C6: with a crop ratio of at least 1 and non-negative detected sizes (an
invariant of centroids the locator produces), the planned crop size is at
least the largest per-frame detected size on each axis. -/
theorem crop_size_ge_largest (centroids : List ImageCentroid) (opts : ProcessingOpts)
    (hne : centroids ≠ []) (hr : 1 ≤ opts.crop_ratio)
    (hsz : ∀ c ∈ centroids, 0 ≤ c.size_x ∧ 0 ≤ c.size_y) :
    ∃ w h : ℚ, crop_calculate_size centroids opts = Except.ok (w, h) ∧
      ∀ c ∈ centroids, (c.size_x : ℚ) ≤ w ∧ (c.size_y : ℚ) ≤ h := by
  obtain ⟨c, rest, rfl⟩ := List.exists_cons_of_ne_nil hne
  refine ⟨((rest.foldl (fun m i => max m i.size_x) c.size_x : ℤ) : ℚ) * opts.crop_ratio,
    ((rest.foldl (fun m i => max m i.size_y) c.size_y : ℤ) : ℚ) * opts.crop_ratio,
    by simp only [crop_calculate_size], ?_⟩
  have hmax_x : ∀ d ∈ c :: rest, d.size_x ≤ rest.foldl (fun m i => max m i.size_x) c.size_x := by
    intro d hd
    rw [size_foldl_eq_map_foldl]
    rcases List.mem_cons.mp hd with rfl | hd
    · exact le_foldl_max_init _ _
    · exact mem_le_foldl_max _ _ _ (List.mem_map.mpr ⟨d, hd, rfl⟩)
  have hmax_y : ∀ d ∈ c :: rest, d.size_y ≤ rest.foldl (fun m i => max m i.size_y) c.size_y := by
    intro d hd
    rw [size_foldl_eq_map_foldl_y]
    rcases List.mem_cons.mp hd with rfl | hd
    · exact le_foldl_max_init _ _
    · exact mem_le_foldl_max _ _ _ (List.mem_map.mpr ⟨d, hd, rfl⟩)
  have h0x : (0 : ℤ) ≤ rest.foldl (fun m i => max m i.size_x) c.size_x :=
    le_trans (hsz c (List.mem_cons_self c rest)).1 (hmax_x c (List.mem_cons_self c rest))
  have h0y : (0 : ℤ) ≤ rest.foldl (fun m i => max m i.size_y) c.size_y :=
    le_trans (hsz c (List.mem_cons_self c rest)).2 (hmax_y c (List.mem_cons_self c rest))
  intro d hd
  have hdx : ((d.size_x : ℚ)) ≤ ((rest.foldl (fun m i => max m i.size_x) c.size_x : ℤ) : ℚ) := by
    exact_mod_cast hmax_x d hd
  have hdy : ((d.size_y : ℚ)) ≤ ((rest.foldl (fun m i => max m i.size_y) c.size_y : ℤ) : ℚ) := by
    exact_mod_cast hmax_y d hd
  have h0x' : (0 : ℚ) ≤ ((rest.foldl (fun m i => max m i.size_x) c.size_x : ℤ) : ℚ) := by
    exact_mod_cast h0x
  have h0y' : (0 : ℚ) ≤ ((rest.foldl (fun m i => max m i.size_y) c.size_y : ℤ) : ℚ) := by
    exact_mod_cast h0y
  constructor
  · nlinarith
  · nlinarith

/-- C6 witness. -/
theorem crop_size_ge_largest_witness :
    ∃ w h : ℚ, crop_calculate_size [⟨(0, 0), 10, 10⟩, ⟨(0, 0), 20, 5⟩] defaultOpts =
      Except.ok (w, h) ∧
      ∀ c ∈ [(⟨(0, 0), 10, 10⟩ : ImageCentroid), ⟨(0, 0), 20, 5⟩],
        (c.size_x : ℚ) ≤ w ∧ (c.size_y : ℚ) ≤ h :=
  crop_size_ge_largest _ _ (by decide) (by norm_num [defaultOpts]) (by decide)

/-- C7: monotonicity of the crop planner — appending one more centroid to a
non-empty input never decreases the planned size on either axis, for any
non-negative crop ratio. -/
theorem crop_size_monotone (centroids : List ImageCentroid) (extra : ImageCentroid)
    (opts : ProcessingOpts) (hne : centroids ≠ []) (hr : 0 ≤ opts.crop_ratio) :
    ∃ w h w2 h2 : ℚ, crop_calculate_size centroids opts = Except.ok (w, h) ∧
      crop_calculate_size (centroids ++ [extra]) opts = Except.ok (w2, h2) ∧
      w ≤ w2 ∧ h ≤ h2 := by
  obtain ⟨c, rest, rfl⟩ := List.exists_cons_of_ne_nil hne
  refine ⟨((rest.foldl (fun m i => max m i.size_x) c.size_x : ℤ) : ℚ) * opts.crop_ratio,
    ((rest.foldl (fun m i => max m i.size_y) c.size_y : ℤ) : ℚ) * opts.crop_ratio,
    (((rest ++ [extra]).foldl (fun m i => max m i.size_x) c.size_x : ℤ) : ℚ) * opts.crop_ratio,
    (((rest ++ [extra]).foldl (fun m i => max m i.size_y) c.size_y : ℤ) : ℚ) * opts.crop_ratio,
    by simp only [crop_calculate_size], by
      rw [List.cons_append]
      simp only [crop_calculate_size], ?_, ?_⟩
  · have h1 : rest.foldl (fun m i => max m i.size_x) c.size_x ≤
        (rest ++ [extra]).foldl (fun m i => max m i.size_x) c.size_x := by
      rw [List.foldl_append]
      exact le_max_left _ _
    have h1' : ((rest.foldl (fun m i => max m i.size_x) c.size_x : ℤ) : ℚ) ≤
        (((rest ++ [extra]).foldl (fun m i => max m i.size_x) c.size_x : ℤ) : ℚ) := by
      exact_mod_cast h1
    exact mul_le_mul_of_nonneg_right h1' hr
  · have h1 : rest.foldl (fun m i => max m i.size_y) c.size_y ≤
        (rest ++ [extra]).foldl (fun m i => max m i.size_y) c.size_y := by
      rw [List.foldl_append]
      exact le_max_left _ _
    have h1' : ((rest.foldl (fun m i => max m i.size_y) c.size_y : ℤ) : ℚ) ≤
        (((rest ++ [extra]).foldl (fun m i => max m i.size_y) c.size_y : ℤ) : ℚ) := by
      exact_mod_cast h1
    exact mul_le_mul_of_nonneg_right h1' hr

/-- C7 witness. -/
theorem crop_size_monotone_witness :
    ∃ w h w2 h2 : ℚ,
      crop_calculate_size [⟨(0, 0), 10, 10⟩] defaultOpts = Except.ok (w, h) ∧
      crop_calculate_size ([⟨(0, 0), 10, 10⟩] ++ [⟨(0, 0), 20, 5⟩]) defaultOpts =
        Except.ok (w2, h2) ∧
      w ≤ w2 ∧ h ≤ h2 :=
  crop_size_monotone _ _ _ (by decide) (by norm_num [defaultOpts])

/-- C8: for a centre inside the image and a non-negative radius, every
coordinate the refinement scan passes to `getpixel` (its clipped window
`[max(0,cx-r), min(w,cx+r)) × [max(0,cy-r), min(h,cy+r))`) lies inside
`[0, width) × [0, height)`, and so does every collected lit pixel — a window
extending past the edges is clipped, with no out-of-bounds access. -/
theorem centr_search_within_bounds (im : PyImage) (radius : ℤ) (c : ℤ × ℤ)
    (_hc : 0 ≤ c.1 ∧ c.1 < im.width ∧ 0 ≤ c.2 ∧ c.2 < im.height) (_hr : 0 ≤ radius) :
    (∀ p ∈ centr_search_domain im radius c,
      0 ≤ p.1 ∧ p.1 < im.width ∧ 0 ≤ p.2 ∧ p.2 < im.height) ∧
    (∀ p ∈ centr_search_pixels im radius c,
      0 ≤ p.1 ∧ p.1 < im.width ∧ 0 ≤ p.2 ∧ p.2 < im.height) :=
  ⟨fun _ hp => centr_search_domain_bounds hp,
    fun _ hp => centr_search_domain_bounds (mem_centr_search_pixels.mp hp).1⟩

/-- C8 witness: a window of radius 150 around the corner of a 4×4 image. -/
theorem centr_search_within_bounds_witness :
    (∀ p ∈ centr_search_domain twoPixelImage 150 (0, 0),
      0 ≤ p.1 ∧ p.1 < twoPixelImage.width ∧ 0 ≤ p.2 ∧ p.2 < twoPixelImage.height) ∧
    (∀ p ∈ centr_search_pixels twoPixelImage 150 (0, 0),
      0 ≤ p.1 ∧ p.1 < twoPixelImage.width ∧ 0 ≤ p.2 ∧ p.2 < twoPixelImage.height) :=
  centr_search_within_bounds twoPixelImage 150 (0, 0) (by decide) (by decide)

/-- C9: the cropper's offset is `center - round(plannedSize / 2)` on each
axis, and the output file is `<stem>_aligned<ext>` (extension preserved)
joined onto the output directory; concretely, frame `frames/img01.jpg` with
centre `(5, 7)` and planned size `(10, 10)` is cropped at offset `(0, 2)`
into `out/img01_aligned.jpg`. -/
theorem crop_on_center_spec (input_image : String) (center : ImageCentroid)
    (image_size : ℚ × ℚ) (opts : ProcessingOpts) :
    (crop_on_center input_image center image_size opts).off_x =
      center.center.1 - pyRound (image_size.1 / 2) ∧
    (crop_on_center input_image center image_size opts).off_y =
      center.center.2 - pyRound (image_size.2 / 2) ∧
    (crop_on_center input_image center image_size opts).out_file =
      py_join opts.output_dir ((py_splitext (py_basename input_image)).1 ++ "_aligned" ++
        (py_splitext (py_basename input_image)).2) ∧
    crop_on_center "frames/img01.jpg" ⟨(5, 7), 0, 0⟩ ((10 : ℚ), (10 : ℚ)) defaultOpts =
      { input_image := "frames/img01.jpg", crop_w := 10, crop_h := 10, off_x := 0, off_y := 2,
        out_file := "out/img01_aligned.jpg" } := by
  refine ⟨rfl, rfl, rfl, ?_⟩
  have h5 : ((10 : ℚ), (10 : ℚ)).1 / 2 = (5 : ℚ) := by norm_num
  have h5' : ((10 : ℚ), (10 : ℚ)).2 / 2 = (5 : ℚ) := by norm_num
  simp only [crop_on_center, h5, h5']
  decide

/-- C10: whenever the coarse search succeeds (with positive strides and a
search radius of at least 1), the seed itself is a lit pixel inside the
clipped refinement window, so the collected list is never empty and the
scan never takes the refinement-failure branch (never returns the
refinement-stage `None`). -/
theorem refinement_branch_unreachable (im : PyImage) (opts : ProcessingOpts) (seed : ℤ × ℤ)
    (hstr : ∀ s ∈ opts.centroid_stride_sequence_px, 1 ≤ s)
    (hrad : 1 ≤ opts.centroid_search_radius_px)
    (hseed : centr_seed im opts = some seed) :
    seed ∈ centr_search_pixels im opts.centroid_search_radius_px seed ∧
    centr_scan_monochrome im opts ≠ Except.ok none := by
  have hmem := seed_mem_search hstr hrad hseed
  refine ⟨hmem, ?_⟩
  have hWne : centr_search_pixels im opts.centroid_search_radius_px seed ≠ [] :=
    List.ne_nil_of_mem hmem
  have hlen0 : (centr_search_pixels im opts.centroid_search_radius_px seed).length ≠ 0 :=
    fun h0 => hWne (List.length_eq_zero.mp h0)
  obtain ⟨⟨mx, Mx⟩, hex⟩ := extent_some_of_ne_nil
    (show (centr_search_pixels im opts.centroid_search_radius_px seed).map Prod.fst ≠ []
      from fun h0 => hWne (List.map_eq_nil_iff.mp h0))
  obtain ⟨⟨my, My⟩, hey⟩ := extent_some_of_ne_nil
    (show (centr_search_pixels im opts.centroid_search_radius_px seed).map Prod.snd ≠ []
      from fun h0 => hWne (List.map_eq_nil_iff.mp h0))
  rw [centr_scan_eq_of_seed hseed hlen0 hex hey]
  simp

/-- C10 witness. -/
theorem refinement_branch_unreachable_witness :
    (1, 1) ∈ centr_search_pixels twoPixelImage defaultOpts.centroid_search_radius_px (1, 1) ∧
    centr_scan_monochrome twoPixelImage defaultOpts ≠ Except.ok none :=
  refinement_branch_unreachable twoPixelImage defaultOpts (1, 1)
    (by decide) (by decide) (by decide)
